import Mathlib

/-!
Verification of the paylocity benefits calculator core: the data model
(`src/types/benefits.ts`), the file-backed store and benefits calculation
(`src/app/api/_data/employeeStore.ts`), and the legacy in-memory service
(`benefitsService`). TypeScript numbers are modelled as exact rationals
(the spec fixes no rounding: output is full precision), the persisted JSON
document as a `List Employee`, and each store operation as a pure function
from the document to a result paired with the document that is persisted
after the call. Randomly generated ids (`crypto.randomUUID()`) are passed
in as explicit parameters.
-/

namespace Paylocity

/-- `Dependent` from `src/types/benefits.ts`: a `Person` with
`type: 'dependent'` (a constant tag, omitted) and a back-reference
`employeeId`. -/
structure Dependent where
  id : String
  firstName : String
  lastName : String
  employeeId : String
deriving Repr, DecidableEq

/-- `Employee` from `src/types/benefits.ts`: a `Person` with
`type: 'employee'` (constant tag, omitted) owning a list of dependents. -/
structure Employee where
  id : String
  firstName : String
  lastName : String
  dependents : List Dependent
deriving Repr, DecidableEq

/-- `BenefitsCalculation` from `src/types/benefits.ts`. -/
structure BenefitsCalculation where
  employeeCost : ℚ
  dependentCost : ℚ
  discount : ℚ
  totalCost : ℚ
  perPaycheck : ℚ
  perYear : ℚ
  paycheckAfterDeductions : ℚ
  paycheckBeforeDeductions : ℚ
deriving Repr, DecidableEq

/-! `BENEFITS_CONSTANTS` from `src/types/benefits.ts`. -/

def EMPLOYEE_YEARLY_COST : ℚ := 1000

def DEPENDENT_YEARLY_COST : ℚ := 500

def DISCOUNT_PERCENTAGE : ℚ := 10 / 100

def PAYCHECKS_PER_YEAR : ℚ := 26

def PAYCHECK_AMOUNT : ℚ := 2000

def DISCOUNT_NAME_STARTS_WITH : String := "A"

/-- JavaScript `s.toLowerCase().startsWith(pre.toLowerCase())`, modelled
on the strings' character lists: lowercasing maps `Char.toLower` over the
characters, and `startsWith` is character-list prefix. -/
def startsWithLower (s pre : String) : Bool :=
  (pre.data.map Char.toLower).isPrefixOf (s.data.map Char.toLower)

/-- JavaScript case-sensitive `s.startsWith(pre)`, modelled on the
strings' character lists. -/
def startsWithPlain (s pre : String) : Bool :=
  pre.data.isPrefixOf s.data

/-- The `employeeDiscount` local of `calculateBenefits`
(`employeeStore.ts` lines 144-146): the employee's own cost times the
discount percentage when the employee's first name, lowercased, starts
with the lowercased configured letter, else zero. -/
def employeeDiscountOf (employee : Employee) : ℚ :=
  if startsWithLower employee.firstName DISCOUNT_NAME_STARTS_WITH
  then EMPLOYEE_YEARLY_COST * DISCOUNT_PERCENTAGE
  else 0

/-- The `dependentDiscount` local of `calculateBenefits`
(`employeeStore.ts` lines 148-152): a reduce over the dependents adding
the per-dependent discount for each dependent whose lowercased first name
starts with the lowercased configured letter. -/
def dependentDiscountOf (employee : Employee) : ℚ :=
  employee.dependents.foldl (fun total dependent =>
    total + (if startsWithLower dependent.firstName DISCOUNT_NAME_STARTS_WITH
      then DEPENDENT_YEARLY_COST * DISCOUNT_PERCENTAGE
      else 0)) 0

/-- `calculateBenefits` from `employeeStore.ts` lines 140-168: the pure
benefits calculation used by the API routes. -/
def calculateBenefits (employee : Employee) : BenefitsCalculation :=
  let employeeCost := EMPLOYEE_YEARLY_COST
  let dependentCost := (employee.dependents.length : ℚ) * DEPENDENT_YEARLY_COST
  let totalDiscount := employeeDiscountOf employee + dependentDiscountOf employee
  let totalCost := employeeCost + dependentCost - totalDiscount
  let perPaycheck := totalCost / PAYCHECKS_PER_YEAR
  { employeeCost := employeeCost
    dependentCost := dependentCost
    discount := totalDiscount
    totalCost := totalCost
    perPaycheck := perPaycheck
    perYear := totalCost
    paycheckAfterDeductions := PAYCHECK_AMOUNT - perPaycheck
    paycheckBeforeDeductions := PAYCHECK_AMOUNT }

/-- JavaScript `Array.prototype.findIndex`, with `-1` modelled as `none`:
the index of the first element satisfying the predicate. -/
def findIndex {α : Type} (p : α → Bool) : List α → Option Nat
  | [] => none
  | a :: rest => if p a then some 0 else (findIndex p rest).map (fun i => i + 1)

/-- `CreateEmployeeRequest` from `src/types/benefits.ts`. -/
structure CreateEmployeeRequest where
  firstName : String
  lastName : String
deriving Repr, DecidableEq

/-- `CreateDependentRequest` from `src/types/benefits.ts`. -/
structure CreateDependentRequest where
  firstName : String
  lastName : String
  employeeId : String
deriving Repr, DecidableEq

/-- `getEmployeeById` from `employeeStore.ts` lines 39-42:
`employees.find(emp => emp.id === id)` over the persisted document. -/
def getEmployeeById (id : String) (s : List Employee) : Option Employee :=
  s.find? (fun emp => emp.id == id)

/-- `addEmployee` from `employeeStore.ts` lines 44-55: pushes a new
employee (freshly generated id, empty dependents, names from the request)
and persists. The generated `crypto.randomUUID()` is the `newId`
parameter. Returns the new employee and the persisted document. -/
def addEmployee (data : CreateEmployeeRequest) (newId : String)
    (s : List Employee) : Employee × List Employee :=
  let newEmployee : Employee :=
    { id := newId
      firstName := data.firstName
      lastName := data.lastName
      dependents := [] }
  (newEmployee, s ++ [newEmployee])

/-- `updateEmployee` from `employeeStore.ts` lines 57-64: finds the index
of the employee with the given record's id; if absent returns `undefined`
(`none`) without writing, else overwrites that slot with the record and
persists. -/
def updateEmployee (updated : Employee) (s : List Employee) :
    Option Employee × List Employee :=
  match findIndex (fun emp => emp.id == updated.id) s with
  | none => (none, s)
  | some idx => (some updated, s.set idx updated)

/-- `deleteEmployee` from `employeeStore.ts` lines 66-75: filters out all
employees with the given id; persists and returns `true` exactly when the
list got shorter. -/
def deleteEmployee (id : String) (s : List Employee) :
    Bool × List Employee :=
  let newEmployees := s.filter (fun emp => emp.id != id)
  if newEmployees.length < s.length then (true, newEmployees) else (false, s)

/-- `addDependent` from `employeeStore.ts` lines 77-98: looks up the
employee named by the request's `employeeId`; if absent returns
`undefined` without writing, else appends a new dependent (freshly
generated id, fields from the request) to that employee's list and
persists. -/
def addDependent (data : CreateDependentRequest) (newId : String)
    (s : List Employee) : Option Dependent × List Employee :=
  match findIndex (fun emp => emp.id == data.employeeId) s with
  | none => (none, s)
  | some empIdx =>
    match s[empIdx]? with
    | none => (none, s)
    | some emp =>
      let newDependent : Dependent :=
        { id := newId
          firstName := data.firstName
          lastName := data.lastName
          employeeId := data.employeeId }
      (some newDependent,
        s.set empIdx { emp with dependents := emp.dependents ++ [newDependent] })

/-- `updateDependent` from `employeeStore.ts` lines 100-119: looks up the
employee by the dependent record's `employeeId`, then the dependent slot
by its `id`; if either is absent returns `undefined` without writing,
else splices the record into that slot and persists. -/
def updateDependent (dep : Dependent) (s : List Employee) :
    Option Dependent × List Employee :=
  match findIndex (fun emp => emp.id == dep.employeeId) s with
  | none => (none, s)
  | some empIdx =>
    match s[empIdx]? with
    | none => (none, s)
    | some emp =>
      match findIndex (fun d => d.id == dep.id) emp.dependents with
      | none => (none, s)
      | some depIdx =>
        (some dep, s.set empIdx { emp with dependents := emp.dependents.set depIdx dep })

/-- `deleteDependent` from `employeeStore.ts` lines 121-137: looks up the
employee, filters that employee's dependents by id; persists and returns
`true` exactly when the dependents list got shorter, else returns `false`
leaving the persisted document as it was. -/
def deleteDependent (employeeId dependentId : String) (s : List Employee) :
    Bool × List Employee :=
  match findIndex (fun emp => emp.id == employeeId) s with
  | none => (false, s)
  | some empIdx =>
    match s[empIdx]? with
    | none => (false, s)
    | some emp =>
      let newDeps := emp.dependents.filter (fun dep => dep.id != dependentId)
      if newDeps.length < emp.dependents.length then
        (true, s.set empIdx { emp with dependents := newDeps })
      else (false, s)

/-- The reducer callback of `calculateTotalBenefits` (`employeeStore.ts`
lines 174-183). -/
def totalBenefitsStep (acc curr : BenefitsCalculation) : BenefitsCalculation :=
  { employeeCost := acc.employeeCost + curr.employeeCost
    dependentCost := acc.dependentCost + curr.dependentCost
    discount := acc.discount + curr.discount
    totalCost := acc.totalCost + curr.totalCost
    perPaycheck := acc.perPaycheck + curr.perPaycheck
    perYear := acc.perYear + curr.perYear
    paycheckAfterDeductions := PAYCHECK_AMOUNT - (acc.perPaycheck + curr.perPaycheck)
    paycheckBeforeDeductions := PAYCHECK_AMOUNT }

/-- The initial accumulator of `calculateTotalBenefits`
(`employeeStore.ts` lines 184-193). -/
def totalBenefitsInit : BenefitsCalculation :=
  { employeeCost := 0
    dependentCost := 0
    discount := 0
    totalCost := 0
    perPaycheck := 0
    perYear := 0
    paycheckAfterDeductions := PAYCHECK_AMOUNT
    paycheckBeforeDeductions := PAYCHECK_AMOUNT }

/-- `calculateTotalBenefits` from `employeeStore.ts` lines 170-195: maps
`calculateBenefits` over the document and reduces with
`totalBenefitsStep` from `totalBenefitsInit`. -/
def calculateTotalBenefits (s : List Employee) : BenefitsCalculation :=
  let all := s.map calculateBenefits
  all.foldl totalBenefitsStep totalBenefitsInit

/-! The legacy in-memory `benefitsService` (`src/services/benefitsService.ts`,
kept under `src/unnamed/part_002`) has its own `calculateBenefits` and
`calculateTotalBenefits`. Its calculation literal carries only six fields
(no paycheck fields) and its name test is `firstName.startsWith('A')`,
without lowercasing. -/

/-- The six-field calculation object literal returned by the service's
`calculateBenefits` (`part_002` lines 38-46). -/
structure ServiceBenefitsCalculation where
  employeeCost : ℚ
  dependentCost : ℚ
  discount : ℚ
  totalCost : ℚ
  perPaycheck : ℚ
  perYear : ℚ
deriving Repr, DecidableEq

/-- The service's `calculateBenefits` (`part_002` lines 21-47): same
arithmetic as the store's, but the discount test is a case-sensitive
`startsWith` on the raw first name. -/
def serviceCalculateBenefits (employee : Employee) : ServiceBenefitsCalculation :=
  let employeeCost := EMPLOYEE_YEARLY_COST
  let dependentCost := (employee.dependents.length : ℚ) * DEPENDENT_YEARLY_COST
  let employeeDiscount :=
    if startsWithPlain employee.firstName DISCOUNT_NAME_STARTS_WITH
    then employeeCost * DISCOUNT_PERCENTAGE
    else 0
  let dependentDiscount := employee.dependents.foldl (fun total dependent =>
    total + (if startsWithPlain dependent.firstName DISCOUNT_NAME_STARTS_WITH
      then DEPENDENT_YEARLY_COST * DISCOUNT_PERCENTAGE
      else 0)) 0
  let totalDiscount := employeeDiscount + dependentDiscount
  let totalCost := employeeCost + dependentCost - totalDiscount
  { employeeCost := employeeCost
    dependentCost := dependentCost
    discount := totalDiscount
    totalCost := totalCost
    perPaycheck := totalCost / PAYCHECKS_PER_YEAR
    perYear := totalCost }

/-- The reducer callback of the service's `calculateTotalBenefits`
(`part_002` lines 204-215). -/
def serviceTotalStep (total : ServiceBenefitsCalculation) (employee : Employee) :
    ServiceBenefitsCalculation :=
  let employeeCalc := serviceCalculateBenefits employee
  { employeeCost := total.employeeCost + employeeCalc.employeeCost
    dependentCost := total.dependentCost + employeeCalc.dependentCost
    discount := total.discount + employeeCalc.discount
    totalCost := total.totalCost + employeeCalc.totalCost
    perPaycheck := total.perPaycheck + employeeCalc.perPaycheck
    perYear := total.perYear + employeeCalc.perYear }

/-- The service's `calculateTotalBenefits` (`part_002` lines 201-230):
a reduce over the in-memory employee list summing every field of each
employee's service calculation, from the all-zero record. -/
def serviceCalculateTotalBenefits (employees : List Employee) :
    ServiceBenefitsCalculation :=
  employees.foldl serviceTotalStep
    { employeeCost := 0
      dependentCost := 0
      discount := 0
      totalCost := 0
      perPaycheck := 0
      perYear := 0 }

/-! Creation with missing name fields. The `POST /api/employees` handler
(`src/app/api/employees/route.ts` lines 27-35) passes the parsed JSON
body to `addEmployee` without inspecting it, and `addEmployee` spreads
the body into the new record without validation, so a body lacking
`firstName`/`lastName` produces a stored employee in which those
properties are absent. Absent JSON fields are modelled as `Option`. -/

/-- A parsed JSON body for employee creation: each name field may be
absent (`none`), as nothing validates the body against
`CreateEmployeeRequest`. -/
structure EmployeeJsonBody where
  firstName : Option String
  lastName : Option String
deriving Repr, DecidableEq

/-- An employee record as actually persisted when the creation body
lacked name fields: the spread `{...data}` leaves the properties absent. -/
structure StoredEmployeeJson where
  id : String
  firstName : Option String
  lastName : Option String
  dependents : List Dependent
deriving Repr, DecidableEq

/-- The employee-creation pipeline `POST /api/employees` → `addEmployee`
on a raw JSON body (`route.ts` lines 27-35 and `employeeStore.ts` lines
44-55): unconditionally builds the record, pushes it and persists —
no branch returns a validation failure. -/
def addEmployeeFromJson (body : EmployeeJsonBody) (newId : String)
    (s : List StoredEmployeeJson) : StoredEmployeeJson × List StoredEmployeeJson :=
  let newEmployee : StoredEmployeeJson :=
    { id := newId
      firstName := body.firstName
      lastName := body.lastName
      dependents := [] }
  (newEmployee, s ++ [newEmployee])

/-- JavaScript `s.trim()` modelled on the string's character list:
whitespace stripped from both ends. -/
def trimChars (s : String) : List Char :=
  ((s.data.dropWhile Char.isWhitespace).reverse.dropWhile Char.isWhitespace).reverse

/-- The only missing-name validation in the repository: the UI form
submit handlers (`EmployeeForm.tsx` line 46, `DependentForm` in
`part_000` line 49, `EmployeeList.tsx` lines 372-383) refuse to submit
when `!firstName.trim() || !lastName.trim()`. -/
def formBlocksSubmit (firstName lastName : String) : Bool :=
  (trimChars firstName).isEmpty || (trimChars lastName).isEmpty

/-! ### Store invariants (spec section 3) -/

/-- The employee ids of the persisted document are pairwise distinct. -/
def IdsNodup (s : List Employee) : Prop :=
  (s.map Employee.id).Nodup

/-- The invariant of spec section 3: every dependent's `employeeId`
matches exactly one employee in the store, namely the employee whose
`dependents` list contains it. -/
def DependentLinkInv (s : List Employee) : Prop :=
  ∀ e ∈ s, ∀ d ∈ e.dependents,
    d.employeeId = e.id ∧ s.countP (fun e2 => e2.id == d.employeeId) = 1

/-- Well-formedness of the document: distinct employee ids together with
correct dependent back-references. -/
def StoreWf (s : List Employee) : Prop :=
  IdsNodup s ∧ ∀ e ∈ s, ∀ d ∈ e.dependents, d.employeeId = e.id

instance decidableIdsNodup (s : List Employee) : Decidable (IdsNodup s) :=
  inferInstanceAs (Decidable ((s.map Employee.id).Nodup))

instance decidableDependentLinkInv (s : List Employee) :
    Decidable (DependentLinkInv s) :=
  inferInstanceAs (Decidable (∀ e ∈ s, ∀ d ∈ e.dependents,
    d.employeeId = e.id ∧ s.countP (fun e2 => e2.id == d.employeeId) = 1))

/-! ### Helper lemmas -/

theorem foldl_add_extract {α : Type} (f : α → ℚ) :
    ∀ (l : List α) (a : ℚ), l.foldl (fun t x => t + f x) a = a + (l.map f).sum
  | [], a => by simp
  | x :: l, a => by
    simp only [List.foldl_cons, List.map_cons, List.sum_cons]
    rw [foldl_add_extract f l (a + f x)]
    ring

theorem findIndex_eq_none_iff {α : Type} (p : α → Bool) :
    ∀ l : List α, findIndex p l = none ↔ ∀ a ∈ l, p a = false
  | [] => by simp [findIndex]
  | x :: l => by
    by_cases hx : p x
    · simp [findIndex, hx]
    · simp only [findIndex, if_neg hx, Option.map_eq_none', List.mem_cons]
      constructor
      · intro h a ha
        rcases ha with rfl | ha
        · simpa using hx
        · exact (findIndex_eq_none_iff p l).mp h a ha
      · intro h
        exact (findIndex_eq_none_iff p l).mpr (fun a ha => h a (Or.inr ha))

theorem findIndex_some {α : Type} {p : α → Bool} :
    ∀ {l : List α} {i : Nat}, findIndex p l = some i →
      ∃ a, l[i]? = some a ∧ p a = true
  | [], i, h => by simp [findIndex] at h
  | x :: l, i, h => by
    by_cases hx : p x
    · rw [findIndex, if_pos hx] at h
      obtain rfl : (0 : Nat) = i := by simpa using h
      exact ⟨x, by simp, hx⟩
    · rw [findIndex, if_neg hx, Option.map_eq_some'] at h
      obtain ⟨j, hj, hji⟩ := h
      obtain ⟨a, ha, hpa⟩ := findIndex_some hj
      subst hji
      exact ⟨a, by simpa using ha, hpa⟩

theorem set_getElem_self {α : Type} :
    ∀ (l : List α) (i : Nat) (a : α), l[i]? = some a → l.set i a = l
  | [], _, _ => by simp
  | x :: l, 0, a => by
    intro h
    simp at h
    simp [h]
  | x :: l, i + 1, a => by
    intro h
    simp only [List.getElem?_cons_succ] at h
    simp [set_getElem_self l i a h]

theorem storeWf_dependentLinkInv {s : List Employee} (h : StoreWf s) :
    DependentLinkInv s := by
  obtain ⟨hnodup, hlink⟩ := h
  intro e he d hd
  have hid := hlink e he d hd
  refine ⟨hid, ?_⟩
  rw [hid]
  have hcount : List.countP (fun e2 => e2.id == e.id) s
      = List.countP (fun x => x == e.id) (s.map Employee.id) := by
    rw [List.countP_map]
    rfl
  rw [hcount]
  exact List.count_eq_one_of_mem hnodup (List.mem_map_of_mem Employee.id he)

theorem storeWf_set {s : List Employee} {i : Nat} {e e2 : Employee}
    (hwf : StoreWf s) (hget : s[i]? = some e) (hid : e2.id = e.id)
    (hdeps : ∀ d ∈ e2.dependents, d.employeeId = e2.id) :
    StoreWf (s.set i e2) := by
  obtain ⟨hnodup, hlink⟩ := hwf
  constructor
  · have hmap : (s.set i e2).map Employee.id = s.map Employee.id := by
      rw [List.map_set]
      apply set_getElem_self
      rw [List.getElem?_map, hget, hid]
      rfl
    unfold IdsNodup
    rw [hmap]
    exact hnodup
  · intro x hx d hd
    rcases List.mem_or_eq_of_mem_set hx with hxs | rfl
    · exact hlink x hxs d hd
    · exact hdeps d hd

theorem addEmployee_wf {s : List Employee} (hwf : StoreWf s)
    (data : CreateEmployeeRequest) {newId : String}
    (hfresh : ∀ e ∈ s, e.id ≠ newId) :
    StoreWf (addEmployee data newId s).2 := by
  obtain ⟨hnodup, hlink⟩ := hwf
  constructor
  · unfold IdsNodup addEmployee
    rw [List.map_append, List.nodup_append]
    refine ⟨hnodup, List.nodup_singleton _, ?_⟩
    intro a ha hb
    simp only [List.map_cons, List.map_nil, List.mem_singleton] at hb
    obtain ⟨e, he, rfl⟩ := List.mem_map.mp ha
    exact hfresh e he hb
  · intro x hx d hd
    simp only [addEmployee, List.mem_append, List.mem_singleton] at hx
    rcases hx with hxs | rfl
    · exact hlink x hxs d hd
    · simp at hd

theorem updateEmployee_wf {s : List Employee} {updated : Employee}
    (hwf : StoreWf s)
    (hdeps : ∀ d ∈ updated.dependents, d.employeeId = updated.id) :
    StoreWf (updateEmployee updated s).2 := by
  cases hfi : findIndex (fun emp => emp.id == updated.id) s with
  | none => simpa [updateEmployee, hfi] using hwf
  | some idx =>
    obtain ⟨e, hget, hpe⟩ := findIndex_some hfi
    have hid : updated.id = e.id := (beq_iff_eq.mp hpe).symm
    simp only [updateEmployee, hfi]
    exact storeWf_set hwf hget hid hdeps

theorem deleteEmployee_wf {s : List Employee} (hwf : StoreWf s)
    (id : String) : StoreWf (deleteEmployee id s).2 := by
  obtain ⟨hnodup, hlink⟩ := hwf
  unfold deleteEmployee
  by_cases hlt : (s.filter (fun emp => emp.id != id)).length < s.length
  · simp only [if_pos hlt]
    constructor
    · exact hnodup.sublist ((List.filter_sublist s).map Employee.id)
    · intro e he d hd
      exact hlink e (List.mem_of_mem_filter he) d hd
  · simp only [if_neg hlt]
    exact ⟨hnodup, hlink⟩

theorem addDependent_wf {s : List Employee} (hwf : StoreWf s)
    (data : CreateDependentRequest) (newId : String) :
    StoreWf (addDependent data newId s).2 := by
  cases hfi : findIndex (fun emp => emp.id == data.employeeId) s with
  | none => simpa [addDependent, hfi] using hwf
  | some empIdx =>
    cases hget : s[empIdx]? with
    | none => simpa [addDependent, hfi, hget] using hwf
    | some emp =>
      obtain ⟨e, hget2, hpe⟩ := findIndex_some hfi
      rw [hget2] at hget
      cases hget
      have hid : emp.id = data.employeeId := beq_iff_eq.mp hpe
      simp only [addDependent, hfi, hget2]
      refine storeWf_set hwf hget2 rfl ?_
      intro d hd
      simp only [List.mem_append, List.mem_singleton] at hd
      rcases hd with hd | rfl
      · exact hwf.2 emp (List.getElem?_mem hget2) d hd
      · exact hid.symm

theorem updateDependent_wf {s : List Employee} (hwf : StoreWf s)
    (dep : Dependent) : StoreWf (updateDependent dep s).2 := by
  cases hfi : findIndex (fun emp => emp.id == dep.employeeId) s with
  | none => simpa [updateDependent, hfi] using hwf
  | some empIdx =>
    cases hget : s[empIdx]? with
    | none => simpa [updateDependent, hfi, hget] using hwf
    | some emp =>
      obtain ⟨e, hget2, hpe⟩ := findIndex_some hfi
      rw [hget2] at hget
      cases hget
      have hid : emp.id = dep.employeeId := beq_iff_eq.mp hpe
      cases hdi : findIndex (fun d => d.id == dep.id) emp.dependents with
      | none => simpa [updateDependent, hfi, hget2, hdi] using hwf
      | some depIdx =>
        simp only [updateDependent, hfi, hget2, hdi]
        refine storeWf_set hwf hget2 rfl ?_
        intro d hd
        rcases List.mem_or_eq_of_mem_set hd with hds | rfl
        · exact hwf.2 emp (List.getElem?_mem hget2) d hds
        · exact hid.symm

theorem deleteDependent_wf {s : List Employee} (hwf : StoreWf s)
    (employeeId dependentId : String) :
    StoreWf (deleteDependent employeeId dependentId s).2 := by
  cases hfi : findIndex (fun emp => emp.id == employeeId) s with
  | none => simpa [deleteDependent, hfi] using hwf
  | some empIdx =>
    cases hget : s[empIdx]? with
    | none => simpa [deleteDependent, hfi, hget] using hwf
    | some emp =>
      by_cases hlt : (emp.dependents.filter (fun dep => dep.id != dependentId)).length
          < emp.dependents.length
      · simp only [deleteDependent, hfi, hget, if_pos hlt]
        refine storeWf_set hwf hget rfl ?_
        intro d hd
        exact hwf.2 emp (List.getElem?_mem hget) d (List.mem_of_mem_filter hd)
      · simpa [deleteDependent, hfi, hget, if_neg hlt] using hwf

/-- The discount contribution of one dependent, as a function of that
dependent's first name alone (the body of the reduce in
`dependentDiscountOf`). -/
def dependentNameDiscount (name : String) : ℚ :=
  if startsWithLower name DISCOUNT_NAME_STARTS_WITH
  then DEPENDENT_YEARLY_COST * DISCOUNT_PERCENTAGE
  else 0

theorem dependentDiscountOf_eq_sum (e : Employee) :
    dependentDiscountOf e
      = ((e.dependents.map Dependent.firstName).map dependentNameDiscount).sum := by
  unfold dependentDiscountOf
  have h := foldl_add_extract (fun d : Dependent => dependentNameDiscount d.firstName)
    e.dependents 0
  simp only [dependentNameDiscount] at h
  rw [h, List.map_map]
  simp only [zero_add]
  rfl

theorem dependentNameDiscount_nonneg (name : String) :
    0 ≤ dependentNameDiscount name := by
  unfold dependentNameDiscount
  split <;> norm_num [DEPENDENT_YEARLY_COST, DISCOUNT_PERCENTAGE]

theorem dependentNameDiscount_le (name : String) :
    dependentNameDiscount name ≤ DEPENDENT_YEARLY_COST * DISCOUNT_PERCENTAGE := by
  unfold dependentNameDiscount
  split <;> norm_num [DEPENDENT_YEARLY_COST, DISCOUNT_PERCENTAGE]

theorem sum_map_le_length_mul {α : Type} (f : α → ℚ) (c : ℚ) (h : ∀ a, f a ≤ c) :
    ∀ l : List α, (l.map f).sum ≤ (l.length : ℚ) * c
  | [] => by simp
  | x :: l => by
    simp only [List.map_cons, List.sum_cons, List.length_cons]
    have ih := sum_map_le_length_mul f c h l
    have hx := h x
    push_cast
    linarith

theorem employeeDiscountOf_nonneg (e : Employee) : 0 ≤ employeeDiscountOf e := by
  unfold employeeDiscountOf
  split <;> norm_num [EMPLOYEE_YEARLY_COST, DISCOUNT_PERCENTAGE]

theorem employeeDiscountOf_le (e : Employee) :
    employeeDiscountOf e ≤ EMPLOYEE_YEARLY_COST * DISCOUNT_PERCENTAGE := by
  unfold employeeDiscountOf
  split <;> norm_num [EMPLOYEE_YEARLY_COST, DISCOUNT_PERCENTAGE]

theorem dependentDiscountOf_nonneg (e : Employee) : 0 ≤ dependentDiscountOf e := by
  rw [dependentDiscountOf_eq_sum]
  apply List.sum_nonneg
  intro x hx
  obtain ⟨n, _, rfl⟩ := List.mem_map.mp hx
  exact dependentNameDiscount_nonneg n

theorem dependentDiscountOf_le (e : Employee) :
    dependentDiscountOf e
      ≤ (e.dependents.length : ℚ) * (DEPENDENT_YEARLY_COST * DISCOUNT_PERCENTAGE) := by
  rw [dependentDiscountOf_eq_sum]
  have h := sum_map_le_length_mul dependentNameDiscount
    (DEPENDENT_YEARLY_COST * DISCOUNT_PERCENTAGE) dependentNameDiscount_le
    (e.dependents.map Dependent.firstName)
  simpa using h

/-! ### Claim theorems -/

/-- Dependent "Adam" of the worked example (spec section 8). -/
def adamExample : Dependent :=
  { id := "dep-1", firstName := "Adam", lastName := "Doe", employeeId := "emp-1" }

/-- Employee "Alice" of the worked example (spec section 8). -/
def aliceExample : Employee :=
  { id := "emp-1", firstName := "Alice", lastName := "Doe",
    dependents := [adamExample] }

/-- C5: for the employee "Alice" with the single dependent "Adam", under
the configured constants (employee cost 1000, dependent cost 500,
discount 10%), the calculation yields employee discount 100, dependent
discount 50, total discount 150, totalCost = 1000 + 500 - 150 = 1350 and
perPaycheck = 1350 / 26. -/
theorem calculateBenefits_alice_adam :
    EMPLOYEE_YEARLY_COST = 1000 ∧ DEPENDENT_YEARLY_COST = 500 ∧
    DISCOUNT_PERCENTAGE = 10 / 100 ∧ PAYCHECKS_PER_YEAR = 26 ∧
    employeeDiscountOf aliceExample = 100 ∧
    dependentDiscountOf aliceExample = 50 ∧
    (calculateBenefits aliceExample).discount = 150 ∧
    (calculateBenefits aliceExample).totalCost = 1000 + 500 - 150 ∧
    (calculateBenefits aliceExample).perPaycheck = 1350 / 26 := by
  have hemp : employeeDiscountOf aliceExample = 100 := by
    simp [employeeDiscountOf, aliceExample, startsWithLower,
      DISCOUNT_NAME_STARTS_WITH, EMPLOYEE_YEARLY_COST, DISCOUNT_PERCENTAGE]
    norm_num
  have hdep : dependentDiscountOf aliceExample = 50 := by
    simp [dependentDiscountOf, aliceExample, adamExample, startsWithLower,
      DISCOUNT_NAME_STARTS_WITH, DEPENDENT_YEARLY_COST, DISCOUNT_PERCENTAGE]
    norm_num
  refine ⟨rfl, rfl, rfl, rfl, hemp, hdep, ?_, ?_, ?_⟩ <;>
    simp only [calculateBenefits, hemp, hdep] <;>
    norm_num [aliceExample, adamExample, EMPLOYEE_YEARLY_COST,
      DEPENDENT_YEARLY_COST, PAYCHECKS_PER_YEAR]

/-- C8: for every employee, the calculation satisfies
`totalCost = employeeCost + dependentCost - discount`, and the fields
`employeeCost`, `dependentCost`, `discount`, `totalCost`, `perPaycheck`
and `perYear` are all non-negative. -/
theorem calculateBenefits_totalCost_eq_and_nonneg (e : Employee) :
    (calculateBenefits e).totalCost
      = (calculateBenefits e).employeeCost + (calculateBenefits e).dependentCost
        - (calculateBenefits e).discount ∧
    0 ≤ (calculateBenefits e).employeeCost ∧
    0 ≤ (calculateBenefits e).dependentCost ∧
    0 ≤ (calculateBenefits e).discount ∧
    0 ≤ (calculateBenefits e).totalCost ∧
    0 ≤ (calculateBenefits e).perPaycheck ∧
    0 ≤ (calculateBenefits e).perYear := by
  have hnn : (0 : ℚ) ≤ (e.dependents.length : ℚ) := Nat.cast_nonneg _
  have h1 := employeeDiscountOf_nonneg e
  have h2 := dependentDiscountOf_nonneg e
  have h3 := employeeDiscountOf_le e
  have h4 := dependentDiscountOf_le e
  have hconst1 : EMPLOYEE_YEARLY_COST * DISCOUNT_PERCENTAGE = 100 := by
    norm_num [EMPLOYEE_YEARLY_COST, DISCOUNT_PERCENTAGE]
  have hconst2 : DEPENDENT_YEARLY_COST * DISCOUNT_PERCENTAGE = 50 := by
    norm_num [DEPENDENT_YEARLY_COST, DISCOUNT_PERCENTAGE]
  rw [hconst1] at h3
  rw [hconst2] at h4
  have htot : 0 ≤ EMPLOYEE_YEARLY_COST + (e.dependents.length : ℚ) * DEPENDENT_YEARLY_COST
      - (employeeDiscountOf e + dependentDiscountOf e) := by
    simp only [EMPLOYEE_YEARLY_COST, DEPENDENT_YEARLY_COST]
    nlinarith
  refine ⟨by simp [calculateBenefits], ?_, ?_, ?_, ?_, ?_, ?_⟩ <;>
    simp only [calculateBenefits]
  · norm_num [EMPLOYEE_YEARLY_COST]
  · exact mul_nonneg hnn (by norm_num [DEPENDENT_YEARLY_COST])
  · linarith
  · exact htot
  · have : (0 : ℚ) < PAYCHECKS_PER_YEAR := by norm_num [PAYCHECKS_PER_YEAR]
    exact div_nonneg htot (le_of_lt this)
  · exact htot

/-- C9: the calculation depends only on the employee's first name and
the dependents' first names: two employees agreeing on those produce
identical `BenefitsCalculation` records. -/
theorem calculateBenefits_depends_only_on_firstNames (e1 e2 : Employee)
    (hfn : e1.firstName = e2.firstName)
    (hdeps : e1.dependents.map Dependent.firstName
      = e2.dependents.map Dependent.firstName) :
    calculateBenefits e1 = calculateBenefits e2 := by
  have hlen : e1.dependents.length = e2.dependents.length := by
    have h := congrArg List.length hdeps
    simpa using h
  have hemp : employeeDiscountOf e1 = employeeDiscountOf e2 := by
    unfold employeeDiscountOf
    rw [hfn]
  have hdep : dependentDiscountOf e1 = dependentDiscountOf e2 := by
    rw [dependentDiscountOf_eq_sum, dependentDiscountOf_eq_sum, hdeps]
  simp [calculateBenefits, hemp, hdep, hlen]

/-- Dependent of `annX`. -/
def boX : Dependent :=
  { id := "d1", firstName := "Bo", lastName := "X", employeeId := "a" }

/-- Dependent of `annY`: same first name as `boX`, different id and
last name. -/
def boY : Dependent :=
  { id := "d2", firstName := "Bo", lastName := "Y", employeeId := "b" }

/-- First employee of the closed noninterference instance: "Ann" with
one dependent "Bo", ids and last names one way. -/
def annX : Employee :=
  { id := "a", firstName := "Ann", lastName := "X", dependents := [boX] }

/-- Second employee of the closed noninterference instance: same first
names as `annX`, different ids and last names. -/
def annY : Employee :=
  { id := "b", firstName := "Ann", lastName := "Y", dependents := [boY] }

/-- Closed instance of `calculateBenefits_depends_only_on_firstNames`:
two concrete employees differing in ids and last names (their own and
their dependents') get the same calculation. -/
theorem calculateBenefits_depends_only_on_firstNames_witness :
    annX.firstName = annY.firstName ∧
    annX.dependents.map Dependent.firstName
      = annY.dependents.map Dependent.firstName ∧
    calculateBenefits annX = calculateBenefits annY :=
  ⟨rfl, rfl, calculateBenefits_depends_only_on_firstNames annX annY rfl rfl⟩

/-- The per-person discount rule as the spec states it: a person's cost
share is reduced by the discount percentage exactly when that person's
first name case-insensitively starts with the configured letter. Stated
from the spec's words, to be compared against the code's calculations. -/
def claimedPersonDiscount (cost : ℚ) (firstName : String) : ℚ :=
  if startsWithLower firstName DISCOUNT_NAME_STARTS_WITH
  then cost * DISCOUNT_PERCENTAGE
  else 0

theorem sum_map_sub {α : Type} (f : α → ℚ) (c : ℚ) :
    ∀ l : List α, (l.map (fun a => c - f a)).sum
      = (l.length : ℚ) * c - (l.map f).sum
  | [] => by simp
  | x :: l => by
    simp only [List.map_cons, List.sum_cons, List.length_cons,
      sum_map_sub f c l]
    push_cast
    ring

/-- Sum form of the service calculation's dependent discount reduce. -/
theorem serviceDependentDiscount_eq_sum (l : List Dependent) :
    l.foldl (fun total dependent =>
      total + (if startsWithPlain dependent.firstName DISCOUNT_NAME_STARTS_WITH
        then DEPENDENT_YEARLY_COST * DISCOUNT_PERCENTAGE
        else 0)) 0
    = ((l.map Dependent.firstName).map
        (fun n => if startsWithPlain n DISCOUNT_NAME_STARTS_WITH
          then DEPENDENT_YEARLY_COST * DISCOUNT_PERCENTAGE else 0)).sum := by
  have h := foldl_add_extract
    (fun d : Dependent => if startsWithPlain d.firstName DISCOUNT_NAME_STARTS_WITH
      then DEPENDENT_YEARLY_COST * DISCOUNT_PERCENTAGE else 0) l 0
  rw [h, List.map_map]
  simp only [zero_add]
  rfl

/-- C1 (amended): the store calculation's discount and total cost
decompose person by person under the case-insensitive rule, each person's
share depending on that person's own first name only; the legacy service
calculation decomposes the same way but under a case-sensitive rule. -/
theorem discount_applies_independently_per_person (e : Employee) :
    (calculateBenefits e).discount
      = claimedPersonDiscount EMPLOYEE_YEARLY_COST e.firstName
        + ((e.dependents.map Dependent.firstName).map
            (claimedPersonDiscount DEPENDENT_YEARLY_COST)).sum ∧
    (calculateBenefits e).totalCost
      = (EMPLOYEE_YEARLY_COST
          - claimedPersonDiscount EMPLOYEE_YEARLY_COST e.firstName)
        + ((e.dependents.map Dependent.firstName).map
            (fun n => DEPENDENT_YEARLY_COST
              - claimedPersonDiscount DEPENDENT_YEARLY_COST n)).sum ∧
    (serviceCalculateBenefits e).discount
      = (if startsWithPlain e.firstName DISCOUNT_NAME_STARTS_WITH
          then EMPLOYEE_YEARLY_COST * DISCOUNT_PERCENTAGE else 0)
        + ((e.dependents.map Dependent.firstName).map
            (fun n => if startsWithPlain n DISCOUNT_NAME_STARTS_WITH
              then DEPENDENT_YEARLY_COST * DISCOUNT_PERCENTAGE else 0)).sum := by
  have hdisc : (calculateBenefits e).discount
      = claimedPersonDiscount EMPLOYEE_YEARLY_COST e.firstName
        + ((e.dependents.map Dependent.firstName).map
            (claimedPersonDiscount DEPENDENT_YEARLY_COST)).sum := by
    show employeeDiscountOf e + dependentDiscountOf e = _
    rw [dependentDiscountOf_eq_sum]
    rfl
  refine ⟨hdisc, ?_, ?_⟩
  · show EMPLOYEE_YEARLY_COST + (e.dependents.length : ℚ) * DEPENDENT_YEARLY_COST
        - (employeeDiscountOf e + dependentDiscountOf e) = _
    have hsub := sum_map_sub (claimedPersonDiscount DEPENDENT_YEARLY_COST)
      DEPENDENT_YEARLY_COST (e.dependents.map Dependent.firstName)
    rw [hsub]
    have hdd : dependentDiscountOf e
        = ((e.dependents.map Dependent.firstName).map
            (claimedPersonDiscount DEPENDENT_YEARLY_COST)).sum := by
      rw [dependentDiscountOf_eq_sum]
      rfl
    have hed : employeeDiscountOf e
        = claimedPersonDiscount EMPLOYEE_YEARLY_COST e.firstName := rfl
    rw [hdd, hed, List.length_map]
    ring
  · show (if startsWithPlain e.firstName DISCOUNT_NAME_STARTS_WITH
          then EMPLOYEE_YEARLY_COST * DISCOUNT_PERCENTAGE else 0)
        + e.dependents.foldl (fun total dependent =>
            total + (if startsWithPlain dependent.firstName DISCOUNT_NAME_STARTS_WITH
              then DEPENDENT_YEARLY_COST * DISCOUNT_PERCENTAGE else 0)) 0 = _
    rw [serviceDependentDiscount_eq_sum]

/-- Closed instance of `discount_applies_independently_per_person` at the
worked example. -/
theorem discount_applies_independently_per_person_witness :
    (calculateBenefits aliceExample).discount
      = claimedPersonDiscount EMPLOYEE_YEARLY_COST aliceExample.firstName
        + ((aliceExample.dependents.map Dependent.firstName).map
            (claimedPersonDiscount DEPENDENT_YEARLY_COST)).sum :=
  (discount_applies_independently_per_person aliceExample).1

/-- An employee whose first name starts with a lowercase letter `a`. -/
def lowercaseAlice : Employee :=
  { id := "e1", firstName := "alice", lastName := "Smith", dependents := [] }

/-- C1 counterexample: "alice" case-insensitively starts with the
configured letter 'A', yet the service calculation (`part_002` lines
21-47, cited by the claim) reduces nothing: its discount is 0 and its
total cost is the undiscounted employee cost. -/
theorem serviceCalculateBenefits_case_sensitive :
    startsWithLower lowercaseAlice.firstName DISCOUNT_NAME_STARTS_WITH = true ∧
    (serviceCalculateBenefits lowercaseAlice).discount = 0 ∧
    (serviceCalculateBenefits lowercaseAlice).totalCost = EMPLOYEE_YEARLY_COST := by
  have hsw : startsWithPlain "alice" DISCOUNT_NAME_STARTS_WITH = false := by decide
  refine ⟨by decide, ?_, ?_⟩ <;>
    simp [serviceCalculateBenefits, lowercaseAlice, hsw]

theorem foldl_totalBenefitsStep :
    ∀ (l : List BenefitsCalculation) (acc : BenefitsCalculation),
      acc.paycheckBeforeDeductions = PAYCHECK_AMOUNT →
      acc.paycheckAfterDeductions = PAYCHECK_AMOUNT - acc.perPaycheck →
      l.foldl totalBenefitsStep acc =
        { employeeCost := acc.employeeCost
            + (l.map BenefitsCalculation.employeeCost).sum
          dependentCost := acc.dependentCost
            + (l.map BenefitsCalculation.dependentCost).sum
          discount := acc.discount + (l.map BenefitsCalculation.discount).sum
          totalCost := acc.totalCost + (l.map BenefitsCalculation.totalCost).sum
          perPaycheck := acc.perPaycheck
            + (l.map BenefitsCalculation.perPaycheck).sum
          perYear := acc.perYear + (l.map BenefitsCalculation.perYear).sum
          paycheckAfterDeductions := PAYCHECK_AMOUNT
            - (acc.perPaycheck + (l.map BenefitsCalculation.perPaycheck).sum)
          paycheckBeforeDeductions := PAYCHECK_AMOUNT }
  | [], acc => by
    intro hb ha
    obtain ⟨a1, a2, a3, a4, a5, a6, a7, a8⟩ := acc
    simp only [List.foldl_nil, List.map_nil, List.sum_nil, add_zero]
    simp only at hb ha
    rw [hb, ha]
  | c :: l, acc => by
    intro hb ha
    rw [List.foldl_cons,
      foldl_totalBenefitsStep l (totalBenefitsStep acc c) rfl rfl]
    simp only [totalBenefitsStep, List.map_cons, List.sum_cons,
      BenefitsCalculation.mk.injEq]
    refine ⟨?_, ?_, ?_, ?_, ?_, ?_, ?_, trivial⟩ <;> ring

theorem foldl_serviceTotalStep :
    ∀ (l : List Employee) (acc : ServiceBenefitsCalculation),
      l.foldl serviceTotalStep acc =
        { employeeCost := acc.employeeCost
            + ((l.map serviceCalculateBenefits).map
                ServiceBenefitsCalculation.employeeCost).sum
          dependentCost := acc.dependentCost
            + ((l.map serviceCalculateBenefits).map
                ServiceBenefitsCalculation.dependentCost).sum
          discount := acc.discount
            + ((l.map serviceCalculateBenefits).map
                ServiceBenefitsCalculation.discount).sum
          totalCost := acc.totalCost
            + ((l.map serviceCalculateBenefits).map
                ServiceBenefitsCalculation.totalCost).sum
          perPaycheck := acc.perPaycheck
            + ((l.map serviceCalculateBenefits).map
                ServiceBenefitsCalculation.perPaycheck).sum
          perYear := acc.perYear
            + ((l.map serviceCalculateBenefits).map
                ServiceBenefitsCalculation.perYear).sum }
  | [], acc => by
    simp only [List.foldl_nil, List.map_nil, List.sum_nil, add_zero]
  | e :: l, acc => by
    rw [List.foldl_cons, foldl_serviceTotalStep l (serviceTotalStep acc e)]
    simp only [serviceTotalStep, List.map_cons, List.sum_cons,
      ServiceBenefitsCalculation.mk.injEq]
    refine ⟨?_, ?_, ?_, ?_, ?_, ?_⟩ <;> ring

/-- C2 (amended): the aggregate calculation is the pointwise sum of the
individual calculations in the six cost fields (`employeeCost`,
`dependentCost`, `discount`, `totalCost`, `perPaycheck`, `perYear`); its
`paycheckBeforeDeductions` is the constant `PAYCHECK_AMOUNT` and its
`paycheckAfterDeductions` is that constant minus the summed
`perPaycheck`, not their pointwise sums. The legacy service aggregate,
which has only the six cost fields, is pointwise in all of them. -/
theorem calculateTotalBenefits_pointwise (s : List Employee) :
    (calculateTotalBenefits s).employeeCost
      = ((s.map calculateBenefits).map BenefitsCalculation.employeeCost).sum ∧
    (calculateTotalBenefits s).dependentCost
      = ((s.map calculateBenefits).map BenefitsCalculation.dependentCost).sum ∧
    (calculateTotalBenefits s).discount
      = ((s.map calculateBenefits).map BenefitsCalculation.discount).sum ∧
    (calculateTotalBenefits s).totalCost
      = ((s.map calculateBenefits).map BenefitsCalculation.totalCost).sum ∧
    (calculateTotalBenefits s).perPaycheck
      = ((s.map calculateBenefits).map BenefitsCalculation.perPaycheck).sum ∧
    (calculateTotalBenefits s).perYear
      = ((s.map calculateBenefits).map BenefitsCalculation.perYear).sum ∧
    (calculateTotalBenefits s).paycheckBeforeDeductions = PAYCHECK_AMOUNT ∧
    (calculateTotalBenefits s).paycheckAfterDeductions
      = PAYCHECK_AMOUNT
        - ((s.map calculateBenefits).map BenefitsCalculation.perPaycheck).sum ∧
    (serviceCalculateTotalBenefits s).employeeCost
      = ((s.map serviceCalculateBenefits).map
          ServiceBenefitsCalculation.employeeCost).sum ∧
    (serviceCalculateTotalBenefits s).dependentCost
      = ((s.map serviceCalculateBenefits).map
          ServiceBenefitsCalculation.dependentCost).sum ∧
    (serviceCalculateTotalBenefits s).discount
      = ((s.map serviceCalculateBenefits).map
          ServiceBenefitsCalculation.discount).sum ∧
    (serviceCalculateTotalBenefits s).totalCost
      = ((s.map serviceCalculateBenefits).map
          ServiceBenefitsCalculation.totalCost).sum ∧
    (serviceCalculateTotalBenefits s).perPaycheck
      = ((s.map serviceCalculateBenefits).map
          ServiceBenefitsCalculation.perPaycheck).sum ∧
    (serviceCalculateTotalBenefits s).perYear
      = ((s.map serviceCalculateBenefits).map
          ServiceBenefitsCalculation.perYear).sum := by
  have hstore : calculateTotalBenefits s
      = (s.map calculateBenefits).foldl totalBenefitsStep totalBenefitsInit := rfl
  have hsum := foldl_totalBenefitsStep (s.map calculateBenefits)
    totalBenefitsInit rfl (by simp [totalBenefitsInit])
  have hsvc := foldl_serviceTotalStep s
    { employeeCost := 0, dependentCost := 0, discount := 0, totalCost := 0,
      perPaycheck := 0, perYear := 0 }
  rw [hstore, hsum]
  have hsvc2 : serviceCalculateTotalBenefits s
      = s.foldl serviceTotalStep
        { employeeCost := 0, dependentCost := 0, discount := 0, totalCost := 0,
          perPaycheck := 0, perYear := 0 } := rfl
  rw [hsvc2, hsvc]
  simp [totalBenefitsInit]

/-- An employee with no dependents and no discount. -/
def bobEmployee : Employee :=
  { id := "b1", firstName := "Bob", lastName := "B", dependents := [] }

/-- C2 counterexample: on a store of two employees the aggregate's
`paycheckBeforeDeductions` is the constant 2000, while the field-wise sum
of the individual calculations' `paycheckBeforeDeductions` is 4000, so
the aggregate is not the field-wise sum in every field. -/
theorem calculateTotalBenefits_not_pointwise_paycheck :
    (calculateTotalBenefits [bobEmployee, bobEmployee]).paycheckBeforeDeductions
      ≠ (([bobEmployee, bobEmployee].map calculateBenefits).map
          BenefitsCalculation.paycheckBeforeDeductions).sum := by
  simp [calculateTotalBenefits, totalBenefitsStep, totalBenefitsInit,
    calculateBenefits, PAYCHECK_AMOUNT]

theorem length_filter_lt_of_mem {α : Type} (p : α → Bool) :
    ∀ {l : List α} {x : α}, x ∈ l → p x = false →
      (l.filter p).length < l.length
  | a :: l, x, hx, hpx => by
    rcases List.mem_cons.mp hx with rfl | hx2
    · rw [List.filter_cons]
      simp only [hpx, Bool.false_eq_true, if_false, List.length_cons]
      exact Nat.lt_succ_of_le (List.length_filter_le p l)
    · rw [List.filter_cons]
      by_cases hpa : p a
      · simp only [hpa, if_true, List.length_cons]
        exact Nat.succ_lt_succ (length_filter_lt_of_mem p hx2 hpx)
      · simp only [hpa, Bool.false_eq_true, if_false, List.length_cons]
        exact Nat.lt_succ_of_lt (length_filter_lt_of_mem p hx2 hpx)

theorem updateEmployee_absent {s : List Employee} {updated : Employee}
    (h : ∀ e ∈ s, e.id ≠ updated.id) : updateEmployee updated s = (none, s) := by
  have hfi : findIndex (fun emp => emp.id == updated.id) s = none :=
    (findIndex_eq_none_iff _ s).mpr (fun e he => by simpa using h e he)
  simp [updateEmployee, hfi]

theorem updateDependent_absent {s : List Employee} {dep : Dependent}
    (h : ∀ e ∈ s, e.id = dep.employeeId → ∀ d ∈ e.dependents, d.id ≠ dep.id) :
    updateDependent dep s = (none, s) := by
  cases hfi : findIndex (fun emp => emp.id == dep.employeeId) s with
  | none => simp [updateDependent, hfi]
  | some empIdx =>
    obtain ⟨emp, hget, hpe⟩ := findIndex_some hfi
    have hid : emp.id = dep.employeeId := beq_iff_eq.mp hpe
    have hdeps := h emp (List.getElem?_mem hget) hid
    have hdi : findIndex (fun d => d.id == dep.id) emp.dependents = none :=
      (findIndex_eq_none_iff _ _).mpr (fun d hd => by simpa using hdeps d hd)
    simp [updateDependent, hfi, hget, hdi]

theorem deleteEmployee_absent {s : List Employee} {id : String}
    (h : ∀ e ∈ s, e.id ≠ id) : deleteEmployee id s = (false, s) := by
  have hfe : s.filter (fun emp => emp.id != id) = s :=
    List.filter_eq_self.mpr (fun e he => by simpa using h e he)
  simp [deleteEmployee, hfe]

theorem deleteDependent_absent {s : List Employee} {eId dId : String}
    (h : ∀ e ∈ s, e.id = eId → ∀ d ∈ e.dependents, d.id ≠ dId) :
    deleteDependent eId dId s = (false, s) := by
  cases hfi : findIndex (fun emp => emp.id == eId) s with
  | none => simp [deleteDependent, hfi]
  | some empIdx =>
    obtain ⟨emp, hget, hpe⟩ := findIndex_some hfi
    have hid : emp.id = eId := beq_iff_eq.mp hpe
    have hdeps := h emp (List.getElem?_mem hget) hid
    have hfd : emp.dependents.filter (fun dep => dep.id != dId)
        = emp.dependents :=
      List.filter_eq_self.mpr (fun d hd => by simpa using hdeps d hd)
    simp [deleteDependent, hfi, hget, hfd]

/-- C3: updating an employee whose id is absent, or a dependent whose
employee id or dependent id is absent, fails with NotFound (`undefined`,
modelled `none`) and the persisted store equals the store before the
call. -/
theorem update_nonexistent_fails_and_preserves_store (s : List Employee)
    (updated : Employee) (dep : Dependent) :
    ((∀ e ∈ s, e.id ≠ updated.id) → updateEmployee updated s = (none, s)) ∧
    ((∀ e ∈ s, e.id ≠ dep.employeeId) → updateDependent dep s = (none, s)) ∧
    ((∀ e ∈ s, e.id = dep.employeeId → ∀ d ∈ e.dependents, d.id ≠ dep.id) →
      updateDependent dep s = (none, s)) :=
  ⟨fun h => updateEmployee_absent h,
   fun h => updateDependent_absent (fun e he heq => absurd heq (h e he)),
   fun h => updateDependent_absent h⟩

/-- A record whose employee id "zz" occurs nowhere in the demo store. -/
def ghostEmployee : Employee :=
  { id := "zz", firstName := "Gus", lastName := "G", dependents := [] }

/-- A dependent record whose employee id "zz" occurs nowhere in the demo
store. -/
def ghostDependent : Dependent :=
  { id := "dz", firstName := "Gal", lastName := "G", employeeId := "zz" }

/-- Closed instance of `update_nonexistent_fails_and_preserves_store` on
a one-employee store and records with absent ids. -/
theorem update_nonexistent_fails_and_preserves_store_witness :
    (∀ e ∈ [bobEmployee], e.id ≠ ghostEmployee.id) ∧
    updateEmployee ghostEmployee [bobEmployee] = (none, [bobEmployee]) ∧
    updateDependent ghostDependent [bobEmployee] = (none, [bobEmployee]) :=
  ⟨by decide,
   (update_nonexistent_fails_and_preserves_store [bobEmployee] ghostEmployee
      ghostDependent).1 (by decide),
   (update_nonexistent_fails_and_preserves_store [bobEmployee] ghostEmployee
      ghostDependent).2.1 (by decide)⟩

/-- C10: deleting an employee whose id is absent, or a dependent whose
employee id or dependent id is absent, returns `false` and the persisted
store equals the store before the call. -/
theorem delete_nonexistent_fails_and_preserves_store (s : List Employee)
    (id eId dId : String) :
    ((∀ e ∈ s, e.id ≠ id) → deleteEmployee id s = (false, s)) ∧
    ((∀ e ∈ s, e.id ≠ eId) → deleteDependent eId dId s = (false, s)) ∧
    ((∀ e ∈ s, e.id = eId → ∀ d ∈ e.dependents, d.id ≠ dId) →
      deleteDependent eId dId s = (false, s)) :=
  ⟨fun h => deleteEmployee_absent h,
   fun h => deleteDependent_absent (fun e he heq => absurd heq (h e he)),
   fun h => deleteDependent_absent h⟩

/-- Closed instance of `delete_nonexistent_fails_and_preserves_store` on
a one-employee store and absent ids. -/
theorem delete_nonexistent_fails_and_preserves_store_witness :
    (∀ e ∈ [bobEmployee], e.id ≠ "zz") ∧
    deleteEmployee "zz" [bobEmployee] = (false, [bobEmployee]) ∧
    deleteDependent "b1" "dz" [bobEmployee] = (false, [bobEmployee]) :=
  ⟨by decide,
   (delete_nonexistent_fails_and_preserves_store [bobEmployee] "zz" "b1"
      "dz").1 (by decide),
   (delete_nonexistent_fails_and_preserves_store [bobEmployee] "zz" "b1"
      "dz").2.2 (by decide)⟩

/-- C6: deleting an employee that is in the store removes its record and
with it all its dependents; every employee left has a different id, a
lookup of the deleted id finds nothing, and for each former dependent a
subsequent update or delete by its ids fails with NotFound leaving the
store unchanged; deleting an absent id fails with NotFound. -/
theorem deleteEmployee_cascades (s : List Employee) (e : Employee)
    (he : e ∈ s) (hdeps : ∀ d ∈ e.dependents, d.employeeId = e.id) :
    deleteEmployee e.id s = (true, s.filter (fun e2 => e2.id != e.id)) ∧
    (∀ e2 ∈ (deleteEmployee e.id s).2, e2.id ≠ e.id) ∧
    getEmployeeById e.id (deleteEmployee e.id s).2 = none ∧
    (∀ d ∈ e.dependents,
      updateDependent d (deleteEmployee e.id s).2
          = (none, (deleteEmployee e.id s).2) ∧
      deleteDependent d.employeeId d.id (deleteEmployee e.id s).2
          = (false, (deleteEmployee e.id s).2)) ∧
    (∀ id2 : String, (∀ e2 ∈ s, e2.id ≠ id2) →
      deleteEmployee id2 s = (false, s)) := by
  have hlt : (s.filter (fun e2 => e2.id != e.id)).length < s.length :=
    length_filter_lt_of_mem _ he (by simp)
  have hdel : deleteEmployee e.id s
      = (true, s.filter (fun e2 => e2.id != e.id)) := by
    simp [deleteEmployee, hlt]
  have hmem : ∀ e2 ∈ (deleteEmployee e.id s).2, e2.id ≠ e.id := by
    rw [hdel]
    intro e2 he2
    have := List.of_mem_filter he2
    simpa using this
  refine ⟨hdel, hmem, ?_, ?_, ?_⟩
  · unfold getEmployeeById
    rw [List.find?_eq_none]
    intro e2 he2
    simpa using hmem e2 he2
  · intro d hd
    have hdid : d.employeeId = e.id := hdeps d hd
    constructor
    · apply updateDependent_absent
      intro e2 he2 heq
      exact absurd (heq.trans hdid) (hmem e2 he2)
    · apply deleteDependent_absent
      intro e2 he2 heq
      exact absurd (heq.trans hdid) (hmem e2 he2)
  · intro id2 h2
    exact deleteEmployee_absent h2

/-- Closed instance of `deleteEmployee_cascades`: deleting "Alice"
removes her record, and lookups for her former dependent "Adam" fail. -/
theorem deleteEmployee_cascades_witness :
    aliceExample ∈ [aliceExample] ∧
    (∀ d ∈ aliceExample.dependents, d.employeeId = aliceExample.id) ∧
    deleteEmployee aliceExample.id [aliceExample] = (true, []) ∧
    updateDependent adamExample (deleteEmployee aliceExample.id [aliceExample]).2
      = (none, (deleteEmployee aliceExample.id [aliceExample]).2) ∧
    deleteDependent adamExample.employeeId adamExample.id
        (deleteEmployee aliceExample.id [aliceExample]).2
      = (false, (deleteEmployee aliceExample.id [aliceExample]).2) := by
  have h := deleteEmployee_cascades [aliceExample] aliceExample
    (by decide) (by decide)
  have hd := h.2.2.2.1 adamExample (by decide)
  exact ⟨by decide, by decide, by simpa using h.1, hd.1, hd.2⟩

/-- C4 (amended): under the additional invariant that employee ids are
pairwise distinct, every store operation preserves the dependent-link
invariant, provided that `addEmployee`'s generated id is fresh and that
the full record handed to `updateEmployee` back-references itself. -/
theorem storeOps_preserve_invariant (s : List Employee)
    (hn : IdsNodup s) (hl : DependentLinkInv s) :
    (∀ (data : CreateEmployeeRequest) (newId : String),
      (∀ e ∈ s, e.id ≠ newId) →
      IdsNodup (addEmployee data newId s).2
        ∧ DependentLinkInv (addEmployee data newId s).2) ∧
    (∀ updated : Employee,
      (∀ d ∈ updated.dependents, d.employeeId = updated.id) →
      IdsNodup (updateEmployee updated s).2
        ∧ DependentLinkInv (updateEmployee updated s).2) ∧
    (∀ id : String, IdsNodup (deleteEmployee id s).2
        ∧ DependentLinkInv (deleteEmployee id s).2) ∧
    (∀ (data : CreateDependentRequest) (newId : String),
      IdsNodup (addDependent data newId s).2
        ∧ DependentLinkInv (addDependent data newId s).2) ∧
    (∀ dep : Dependent, IdsNodup (updateDependent dep s).2
        ∧ DependentLinkInv (updateDependent dep s).2) ∧
    (∀ eId dId : String, IdsNodup (deleteDependent eId dId s).2
        ∧ DependentLinkInv (deleteDependent eId dId s).2) := by
  have hwf : StoreWf s := ⟨hn, fun e he d hd => (hl e he d hd).1⟩
  have out : ∀ {t : List Employee}, StoreWf t →
      IdsNodup t ∧ DependentLinkInv t :=
    fun h => ⟨h.1, storeWf_dependentLinkInv h⟩
  refine ⟨?_, ?_, ?_, ?_, ?_, ?_⟩
  · intro data newId hfresh
    exact out (addEmployee_wf hwf data hfresh)
  · intro updated hdeps
    exact out (updateEmployee_wf hwf hdeps)
  · intro id
    exact out (deleteEmployee_wf hwf id)
  · intro data newId
    exact out (addDependent_wf hwf data newId)
  · intro dep
    exact out (updateDependent_wf hwf dep)
  · intro eId dId
    exact out (deleteDependent_wf hwf eId dId)

/-- Closed instance of `storeOps_preserve_invariant` on a concrete
well-formed store. -/
theorem storeOps_preserve_invariant_witness :
    IdsNodup [aliceExample] ∧ DependentLinkInv [aliceExample] ∧
    (∀ e ∈ [aliceExample], e.id ≠ "fresh-1") ∧
    (IdsNodup (deleteEmployee "emp-1" [aliceExample]).2
      ∧ DependentLinkInv (deleteEmployee "emp-1" [aliceExample]).2) ∧
    (IdsNodup (addEmployee ⟨"Eve", "E"⟩ "fresh-1" [aliceExample]).2
      ∧ DependentLinkInv (addEmployee ⟨"Eve", "E"⟩ "fresh-1" [aliceExample]).2) := by
  have h := storeOps_preserve_invariant [aliceExample] (by decide) (by decide)
  exact ⟨by decide, by decide, by decide, h.2.2.1 "emp-1",
    h.1 ⟨"Eve", "E"⟩ "fresh-1" (by decide)⟩

/-- A dependent whose back-reference "e2" names no employee. -/
def strayDependent : Dependent :=
  { id := "d1", firstName := "Kid", lastName := "B", employeeId := "e2" }

/-- An employee record with id "e1" and no dependents. -/
def bobOne : Employee :=
  { id := "e1", firstName := "Bob", lastName := "B", dependents := [] }

/-- The record `bobOne` with `strayDependent` attached: same id "e1",
but its dependent back-references "e2". -/
def bobWithStray : Employee :=
  { id := "e1", firstName := "Bob", lastName := "B",
    dependents := [strayDependent] }

/-- A second employee with the duplicate id "e1". -/
def bobDup : Employee :=
  { id := "e1", firstName := "Rob", lastName := "C", dependents := [] }

/-- A creation request for a dependent under employee id "e1". -/
def kidRequest : CreateDependentRequest :=
  { firstName := "Kid", lastName := "K", employeeId := "e1" }

/-- C4 counterexample: the invariant holds on `[bobOne]`, yet
`updateEmployee` succeeds with a record whose dependent back-references
an absent employee and the resulting store violates the invariant; and
on a duplicate-id store the invariant holds vacuously, yet a successful
`addDependent` produces a dependent matched by two employees. -/
theorem storeInvariant_not_preserved :
    (DependentLinkInv [bobOne] ∧
      updateEmployee bobWithStray [bobOne]
        = (some bobWithStray, [bobWithStray]) ∧
      ¬ DependentLinkInv (updateEmployee bobWithStray [bobOne]).2) ∧
    (DependentLinkInv [bobOne, bobDup] ∧
      ¬ DependentLinkInv (addDependent kidRequest "d9" [bobOne, bobDup]).2) := by
  refine ⟨⟨by decide, by decide, ?_⟩, by decide, ?_⟩
  · intro h
    have := (h bobWithStray (by decide) strayDependent (by decide)).1
    exact absurd this (by decide)
  · intro h
    revert h
    decide

/-! C7: missing-name validation. -/

/-- A creation body with both name fields missing. -/
def missingNamesBody : EmployeeJsonBody :=
  { firstName := none, lastName := none }

/-- The record `addEmployeeFromJson` persists for `missingNamesBody`
under generated id "e1". -/
def namelessStored : StoredEmployeeJson :=
  { id := "e1", firstName := none, lastName := none, dependents := [] }

/-- C7 counterexample: a creation body missing both required name fields
does not fail with a ValidationError — the pipeline succeeds, returns
the nameless employee and persists it. -/
theorem addEmployee_succeeds_despite_missing_names :
    addEmployeeFromJson missingNamesBody "e1" []
      = (namelessStored, [namelessStored]) := rfl

/-- C7 (amended): the store/API layer performs no name validation —
employee creation succeeds for every body, persisting exactly the body's
(possibly absent) name fields; the only missing-name validation in the
repository is the UI forms' submit guard, which blocks empty or
whitespace-only names. -/
theorem addEmployee_validation_only_in_ui (body : EmployeeJsonBody)
    (newId : String) (s : List StoredEmployeeJson) :
    (addEmployeeFromJson body newId s).1.firstName = body.firstName ∧
    (addEmployeeFromJson body newId s).1.lastName = body.lastName ∧
    (addEmployeeFromJson body newId s).2
      = s ++ [(addEmployeeFromJson body newId s).1] ∧
    (addEmployeeFromJson body newId s).1 ∈ (addEmployeeFromJson body newId s).2 ∧
    formBlocksSubmit "" "" = true ∧
    formBlocksSubmit " " "x" = true ∧
    formBlocksSubmit "Ann" "Doe" = false :=
  ⟨rfl, rfl, rfl, by simp [addEmployeeFromJson], by decide, by decide, by decide⟩

end Paylocity
